import Mathlib

set_option maxRecDepth 4000

/-!
Verification development for `pegca_sim.py`, a single-file VM-consolidation
simulator.  The simulator is embedded shallowly over `ℚ`: Python floats become
exact rationals, mutable objects become explicit state records, and the seeded
pseudo-random source together with the deterministic `sin` drift term is
abstracted as an `Oracle` (the spec declares the random engine interchangeable:
"the core only requires a seeded, repeatable source of bounded pseudo-random
increments").  Python's `round(x, nd)` is modelled as rounding to the nearest
multiple of `10 ^ (-nd)` (ties rounded half-up; the source's float round uses
half-even on binary floats, and no statement below depends on tie direction).
-/

namespace Pegca

/-- Power state of a host; the source stores the strings "ON" / "OFF" in
`Host.status`. -/
inductive Status where
  | ON
  | OFF
deriving DecidableEq, Repr, Inhabited

/-- Configuration record (`class Config`), including the mutable
`target_util` field that `simulate` overwrites in place at line 179 of the
source. -/
structure Config where
  alpha : ℚ
  low_usage_threshold : ℚ
  target_util : ℚ
  hi_watermark : ℚ
  dt_hours : ℚ
  cycles : ℕ
  n_hosts : ℕ
  n_vms : ℕ
  seed : ℤ
deriving Repr, DecidableEq

/-- Host record (`class Host`); `simulate` constructs every host with the
constructor defaults (caps 100, idle 120 W, peak 300 W, status ON). -/
structure Host where
  id : ℕ
  cpu_cap : ℚ
  mem_cap : ℚ
  status : Status
  power_idle_watts : ℚ
  power_peak_watts : ℚ
deriving Repr, DecidableEq, Inhabited

/-- VM record (`class VM`): append-only utilization histories (most recent
sample last) plus the cached EMA predictions. -/
structure VM where
  id : ℕ
  host_id : ℕ
  cpu_use_hist : List ℚ
  mem_use_hist : List ℚ
  pred_cpu : ℚ
  pred_mem : ℚ
deriving Repr, DecidableEq, Inhabited

/-- Abstraction of the run's stochastic source.  `init_cpu s i` is the value
`random.uniform(10.0, 60.0)` drawn for VM `i` at construction under seed `s`;
`synth_drift s t i` is the whole delta `10*sin(2*pi*(t mod 24)/24) +
random.uniform(-8.0, 8.0)` drawn when VM `i` (in list order) is updated in
cycle `t`.  Both are deterministic functions of the seed, matching
`random.seed(cfg.seed)` at the top of `simulate`. -/
structure Oracle where
  init_cpu : ℤ → ℕ → ℚ
  synth_drift : ℤ → ℕ → ℕ → ℚ

/-- Python's `round(q, nd)` modelled over `ℚ`: nearest multiple of
`10 ^ (-nd)`. -/
def round_to (nd : ℕ) (q : ℚ) : ℚ :=
  ((round (q * 10 ^ nd) : ℤ) : ℚ) / 10 ^ nd

/-- Source `_bounded(x, lo, hi) = max(lo, min(hi, x))`. -/
def _bounded (x lo hi : ℚ) : ℚ := max lo (min hi x)

/-- Last element of a history (`hist[-1]`); histories always have length ≥ 2
in the simulator, so the default is never read there. -/
def last1 (l : List ℚ) : ℚ := l.getLastD 0

/-- Second-to-last element of a history (`hist[-2]`). -/
def last2 (l : List ℚ) : ℚ := l.dropLast.getLastD 0

/-- Source `predict_ema`: overwrite the cached predictions from the two most
recent samples of each history, with the same `alpha` for CPU and memory. -/
def predict_ema (vm : VM) (alpha : ℚ) : VM :=
  { vm with
    pred_cpu := alpha * last1 vm.cpu_use_hist + (1 - alpha) * last2 vm.cpu_use_hist,
    pred_mem := alpha * last1 vm.mem_use_hist + (1 - alpha) * last2 vm.mem_use_hist }

/-- Source `active_hosts`: hosts whose status is ON, in list order. -/
def active_hosts (hosts : List Host) : List Host :=
  hosts.filter fun h => decide (h.status = Status.ON)

/-- Source `off_hosts`: hosts whose status is OFF, in list order. -/
def off_hosts (hosts : List Host) : List Host :=
  hosts.filter fun h => decide (h.status = Status.OFF)

/-- Membership test on the key set of the per-ON-host load dictionaries built
by `loads_predicted` (`if hid in cpu`). -/
def onIds (hosts : List Host) : List ℕ :=
  (hosts.filter fun h => decide (h.status = Status.ON)).map Host.id

/-- Source `loads_predicted`: dictionaries keyed by the ids of the ON hosts of
`hosts`, summing `pred_cpu` / `pred_mem` of the VMs assigned there.  The
dictionaries are modelled as total functions returning 0 outside the key set
`onIds hosts`; a VM whose `host_id` is not a key contributes nothing. -/
def loads_predicted (hosts : List Host) (vms : List VM) : (ℕ → ℚ) × (ℕ → ℚ) :=
  (fun hid => if hid ∈ onIds hosts
      then ((vms.filter fun vm => decide (vm.host_id = hid)).map VM.pred_cpu).sum else 0,
   fun hid => if hid ∈ onIds hosts
      then ((vms.filter fun vm => decide (vm.host_id = hid)).map VM.pred_mem).sum else 0)

/-- Source `first_fit`: first ON host (in the given order) whose tallied CPU
and memory loads would stay within `cap * target_util` after adding the VM's
predictions. -/
def first_fit (vm : VM) (on_hosts : List Host)
    (cpu_loads mem_loads : ℕ → ℚ) (target_util : ℚ) : Option Host :=
  on_hosts.find? fun h =>
    decide (cpu_loads h.id + vm.pred_cpu ≤ h.cpu_cap * target_util) &&
    decide (mem_loads h.id + vm.pred_mem ≤ h.mem_cap * target_util)

/-- Lookup in the dictionary `{h.id: h.cpu_cap for h in hs}` with default 0
(`caps.get(hid, 0.0)`); a Python dict comprehension keeps the last binding for
a duplicated key, hence the `reverse`. -/
def dictCapOf (hs : List Host) (hid : ℕ) : ℚ :=
  match hs.reverse.find? (fun h => decide (h.id = hid)) with
  | some h => h.cpu_cap
  | none => 0

/-- Source `any_high_watermark`: scan the load dictionary (key list `loadIds`
plus value function `cpu_loads`) and report whether some key's capacity —
looked up among the ON hosts, missing keys giving 0 — is positive and has its
load strictly above `cap * hi_watermark`. -/
def any_high_watermark (cpu_loads : ℕ → ℚ) (loadIds : List ℕ)
    (on_hosts : List Host) (hi_watermark : ℚ) : Bool :=
  loadIds.any fun hid =>
    let cap := dictCapOf (on_hosts.filter fun h => decide (h.status = Status.ON)) hid
    decide (0 < cap) && decide (cap * hi_watermark < cpu_loads hid)

/-- Mutable simulator state owned by one run of `simulate`: the host and VM
lists, the three running counters, and the `cfg.target_util` cell that the
feedback controller mutates. -/
structure SimState where
  hosts : List Host
  vms : List VM
  total_kwh : ℚ
  total_migrations : ℕ
  total_breaches : ℕ
  target_util : ℚ
deriving Repr, DecidableEq

/-- State of the planning pass of one cycle: the two running load tallies and
the move list accumulated so far. -/
structure PlanState where
  cpu_loads : ℕ → ℚ
  mem_loads : ℕ → ℚ
  plan : List (ℕ × ℕ × ℕ)

/-- Pointwise dictionary update `f[k] += x`. -/
def updAdd (f : ℕ → ℚ) (k : ℕ) (x : ℚ) : ℕ → ℚ :=
  fun n => if n = k then f k + x else f n

/-- One iteration of the planning loop (source lines 147-152): find a first-fit
destination for the candidate; if one exists and differs from the VM's current
host, record the move and charge the destination's tallies. -/
def planStep (on_hosts : List Host) (target_util : ℚ)
    (st : PlanState) (vm : VM) : PlanState :=
  match first_fit vm on_hosts st.cpu_loads st.mem_loads target_util with
  | some dst =>
      if dst.id ≠ vm.host_id then
        { cpu_loads := updAdd st.cpu_loads dst.id vm.pred_cpu,
          mem_loads := updAdd st.mem_loads dst.id vm.pred_mem,
          plan := st.plan ++ [(vm.id, vm.host_id, dst.id)] }
      else st
  | none => st

/-- Steps 3-4 of a cycle: select candidates with `pred_cpu` at most the low
threshold, sort them by `pred_cpu` descending (stable, as Python's
`sorted(..., reverse=True)`), and fold the planning step over them starting
from tallies seeded by `loads_predicted` on the ON hosts and an empty plan. -/
def cyclePlanState (cfg : Config) (hosts : List Host) (target_util : ℚ)
    (vms2 : List VM) : PlanState :=
  let onh := active_hosts hosts
  let loads := loads_predicted onh vms2
  let cands := vms2.filter fun vm => decide (vm.pred_cpu ≤ cfg.low_usage_threshold)
  (cands.mergeSort fun a b => decide (b.pred_cpu ≤ a.pred_cpu)).foldl
    (planStep onh target_util) ⟨loads.1, loads.2, []⟩

/-- Step 1 of a cycle for one VM: append the drifted CPU sample and the
memory sample drifted at the fixed 0.8 ratio, both clamped to [0, 100]. -/
def driftVM (d : ℚ) (vm : VM) : VM :=
  { vm with
    cpu_use_hist := vm.cpu_use_hist ++ [_bounded (last1 vm.cpu_use_hist + d) 0 100],
    mem_use_hist := vm.mem_use_hist ++ [_bounded (last1 vm.mem_use_hist + d * (4/5)) 0 100] }

/-- Step 1 over the whole VM list: VM at position `i` consumes the draw for
index `start + i`, in list order, as the Python loop consumes one uniform draw
per VM in order. -/
def driftVMsFrom (d : ℕ → ℚ) : ℕ → List VM → List VM
  | _, [] => []
  | i, vm :: rest => driftVM (d i) vm :: driftVMsFrom d (i + 1) rest

/-- Steps 1-2 of cycle `t`: drift every VM's histories, then recompute every
VM's EMA predictions with `cfg.alpha`.  This is exactly the VM list the
planner reads. -/
def predVMs (cfg : Config) (o : Oracle) (t : ℕ) (vms : List VM) : List VM :=
  (driftVMsFrom (fun i => o.synth_drift cfg.seed t i) 0 vms).map
    fun vm => predict_ema vm cfg.alpha

/-- Step 5 for one planned move `(vm_id, src, dst)`: `vms[vm_id].host_id = dst`
(positional indexing, as in the source; VM ids coincide with list positions
throughout a run). -/
def applyMove (vms : List VM) (mv : ℕ × ℕ × ℕ) : List VM :=
  vms.set mv.1 { vms.getD mv.1 default with host_id := mv.2.2 }

/-- Steps 1-5 of cycle `t`: the post-migration VM list. -/
def cycleVMs (cfg : Config) (o : Oracle) (t : ℕ) (st : SimState) : List VM :=
  let vms2 := predVMs cfg o t st.vms
  ((cyclePlanState cfg st.hosts st.target_util vms2).plan).foldl applyMove vms2

/-- Step 6 for one host: an ON host with no VM assigned (post-migration)
transitions to OFF; every other host is unchanged. -/
def shutdownF (vms : List VM) (h : Host) : Host :=
  if h.status = Status.ON ∧ ¬ (vms.any fun vm => decide (vm.host_id = h.id)) = true
  then { h with status := Status.OFF } else h

/-- Step 6 over the host list. -/
def shutdownStep (hosts : List Host) (vms : List VM) : List Host :=
  hosts.map (shutdownF vms)

/-- Host list after the shutdown step of cycle `t`. -/
def cycleHosts (cfg : Config) (o : Oracle) (t : ℕ) (st : SimState) : List Host :=
  shutdownStep st.hosts (cycleVMs cfg o t st)

/-- Step 8's breach test: recompute predicted CPU loads over the hosts still
ON after shutdown and check the high watermark. -/
def cycleBreach (cfg : Config) (hosts1 : List Host) (vms3 : List VM) : Bool :=
  let on2 := active_hosts hosts1
  any_high_watermark (loads_predicted on2 vms3).1 (onIds on2) on2 cfg.hi_watermark

/-- Feedback controller (source line 179): on a breach, step `target_util`
down by 0.02, round to 3 decimals, floor at 0.70; otherwise leave it. -/
def feedback_target (breach : Bool) (tu : ℚ) : ℚ :=
  if breach then max (7/10) (round_to 3 (tu - 1/50)) else tu

/-- One full cycle `t` of `simulate`'s main loop (steps 1-8). -/
def runCycle (cfg : Config) (o : Oracle) (t : ℕ) (st : SimState) : SimState :=
  { hosts := cycleHosts cfg o t st,
    vms := cycleVMs cfg o t st,
    total_kwh := st.total_kwh +
      ((off_hosts (cycleHosts cfg o t st)).map Host.power_idle_watts).sum
        * cfg.dt_hours / 1000,
    total_migrations := st.total_migrations +
      (cyclePlanState cfg st.hosts st.target_util (predVMs cfg o t st.vms)).plan.length,
    total_breaches := st.total_breaches +
      (if cycleBreach cfg (cycleHosts cfg o t st) (cycleVMs cfg o t st) then 1 else 0),
    target_util :=
      feedback_target (cycleBreach cfg (cycleHosts cfg o t st) (cycleVMs cfg o t st))
        st.target_util }

/-- Host construction in `simulate`: all constructor defaults. -/
def mkHost (hid : ℕ) : Host :=
  { id := hid, cpu_cap := 100, mem_cap := 100, status := Status.ON,
    power_idle_watts := 120, power_peak_watts := 300 }

/-- VM construction in `simulate`: round-robin host assignment `i % n_hosts`,
initial CPU draw from the seeded source, memory at 0.8 of CPU clamped to
[5, 80], histories seeded with two identical samples. -/
def initVM (o : Oracle) (seed : ℤ) (n_hosts : ℕ) (i : ℕ) : VM :=
  let init_cpu := o.init_cpu seed i
  let init_mem := _bounded (init_cpu * (4/5)) 5 80
  { id := i, host_id := i % n_hosts,
    cpu_use_hist := [init_cpu, init_cpu], mem_use_hist := [init_mem, init_mem],
    pred_cpu := init_cpu, pred_mem := init_mem }

/-- Run state freshly constructed at the top of `simulate`. -/
def initState (cfg : Config) (o : Oracle) : SimState :=
  { hosts := (List.range cfg.n_hosts).map mkHost,
    vms := (List.range cfg.n_vms).map (initVM o cfg.seed cfg.n_hosts),
    total_kwh := 0, total_migrations := 0, total_breaches := 0,
    target_util := cfg.target_util }

/-- Simulator state after the first `n` cycles of a run. -/
def stateAfter (cfg : Config) (o : Oracle) (n : ℕ) : SimState :=
  (List.range n).foldl (fun st t => runCycle cfg o t st) (initState cfg o)

/-- Summary record returned by `simulate`. -/
structure Summary where
  energy_kwh_total : ℚ
  migrations_total : ℕ
  hosts_off_final : ℕ
  util_mean_final : ℚ
  util_p95_final : ℚ
  hi_watermark_breaches : ℕ
  final_target_util : ℚ
deriving Repr, DecidableEq

/-- Python `statistics.mean`. -/
def pymean (l : List ℚ) : ℚ := l.sum / l.length

/-- Python `max` over a list (only applied to nonempty lists in the source). -/
def pymax (l : List ℚ) : ℚ :=
  match l with
  | [] => 0
  | x :: xs => xs.foldl max x

/-- Last entry of Python `statistics.quantiles(data, n=20)` (default
`method='exclusive'`): sort ascending, take `j, delta = divmod(19 * (ld + 1),
20)`, clamp `j` into `[1, ld - 1]`, and interpolate between the two
neighboring order statistics. -/
def quantiles20_last (data : List ℚ) : ℚ :=
  let s := data.mergeSort fun a b => decide (a ≤ b)
  let ld := s.length
  let j0 := 19 * (ld + 1) / 20
  let delta := 19 * (ld + 1) % 20
  let j := if j0 < 1 then 1 else if ld - 1 < j0 then ld - 1 else j0
  (s.getD (j - 1) 0 * ((20 - delta : ℕ) : ℚ) + s.getD j 0 * (delta : ℚ)) / 20

/-- End-of-run utilization list: for each key of the final predicted-CPU load
dictionary (the ON hosts, in order) whose capacity is positive, `load / cap`. -/
def finalUtils (st : SimState) : List ℚ :=
  let onh := active_hosts st.hosts
  let cpu := (loads_predicted onh st.vms).1
  ((onIds onh).filter fun hid => decide (0 < dictCapOf onh hid)).map
    fun hid => cpu hid / dictCapOf onh hid

/-- Summary construction (source lines 181-198). -/
def summarize (st : SimState) : Summary :=
  let utils := finalUtils st
  { energy_kwh_total := round_to 3 st.total_kwh,
    migrations_total := st.total_migrations,
    hosts_off_final := (off_hosts st.hosts).length,
    util_mean_final := if utils.isEmpty then 0 else round_to 4 (pymean utils),
    util_p95_final :=
      if 20 ≤ utils.length then round_to 4 (quantiles20_last utils) else pymax utils,
    hi_watermark_breaches := st.total_breaches,
    final_target_util := round_to 3 st.target_util }

/-- Whole `simulate` call: the summary record together with the configuration
object as it stands after the run — `simulate` mutates `cfg.target_util` in
place (line 179), which the second component makes explicit. -/
def simulate (cfg : Config) (o : Oracle) : Summary × Config :=
  let st := stateAfter cfg o cfg.cycles
  (summarize st, { cfg with target_util := st.target_util })

end Pegca

namespace Pegca

/-! ### Helper lemmas -/

/-- Rounding to `nd` decimals moves a rational by at most half a unit in the
last place. -/
theorem round_to_le_add (nd : ℕ) (q : ℚ) :
    round_to nd q ≤ q + 1 / (2 * 10 ^ nd) := by
  have h10 : (0:ℚ) < 10 ^ nd := by positivity
  have h := abs_sub_round (q * 10 ^ nd)
  rw [abs_sub_le_iff] at h
  have h1 : ((round (q * 10 ^ nd) : ℤ) : ℚ) ≤ q * 10 ^ nd + 1 / 2 := by linarith [h.1]
  rw [round_to, div_le_iff₀ h10]
  calc ((round (q * 10 ^ nd) : ℤ) : ℚ) ≤ q * 10 ^ nd + 1 / 2 := h1
    _ = (q + 1 / (2 * 10 ^ nd)) * 10 ^ nd := by field_simp; ring

/-- Rounding to `nd` decimals is idempotent. -/
theorem round_to_idem (nd : ℕ) (q : ℚ) :
    round_to nd (round_to nd q) = round_to nd q := by
  have h10 : ((10:ℚ) ^ nd) ≠ 0 := by positivity
  unfold round_to
  rw [div_mul_cancel₀ _ h10, round_intCast]

/-- Behavior of the feedback controller when the current target is at or
above the floor: the new target stays in `[0.70, current]`. -/
theorem feedback_target_bounds (b : Bool) (tu : ℚ) (h : 7/10 ≤ tu) :
    feedback_target b tu ≤ tu ∧ 7/10 ≤ feedback_target b tu := by
  unfold feedback_target
  cases b with
  | false => simpa using h
  | true =>
    simp only [if_pos rfl, Bool.true_eq_false, if_false]
    constructor
    · apply max_le h
      have := round_to_le_add 3 (tu - 1/50)
      have hp : (0:ℚ) < 10 ^ 3 := by norm_num
      calc round_to 3 (tu - 1/50) ≤ (tu - 1/50) + 1 / (2 * 10 ^ 3) := this
        _ ≤ tu := by norm_num; linarith
    · exact le_max_left _ _

/-- Unfolding one step of `stateAfter`. -/
theorem stateAfter_succ (cfg : Config) (o : Oracle) (n : ℕ) :
    stateAfter cfg o (n + 1) = runCycle cfg o n (stateAfter cfg o n) := by
  unfold stateAfter
  rw [List.range_succ, List.foldl_append, List.foldl_cons, List.foldl_nil]

/-- The `target_util` component of one cycle. -/
theorem runCycle_target_util (cfg : Config) (o : Oracle) (t : ℕ) (st : SimState) :
    (runCycle cfg o t st).target_util =
      feedback_target (cycleBreach cfg (cycleHosts cfg o t st) (cycleVMs cfg o t st))
        st.target_util := rfl

/-- The run-level floor invariant: if the configured target starts at or above
0.70 it stays there, decreasing cycle by cycle. -/
theorem target_util_invariant (cfg : Config) (o : Oracle)
    (h : 7/10 ≤ cfg.target_util) (n : ℕ) :
    7/10 ≤ (stateAfter cfg o n).target_util ∧
      (stateAfter cfg o (n+1)).target_util ≤ (stateAfter cfg o n).target_util := by
  induction n with
  | zero =>
    refine ⟨h, ?_⟩
    rw [stateAfter_succ, runCycle_target_util]
    exact (feedback_target_bounds _ _ h).1
  | succ k ih =>
    have hk : 7/10 ≤ (stateAfter cfg o (k+1)).target_util := by
      rw [stateAfter_succ, runCycle_target_util]
      exact (feedback_target_bounds _ _ ih.1).2
    refine ⟨hk, ?_⟩
    rw [stateAfter_succ cfg o (k+1), runCycle_target_util]
    exact (feedback_target_bounds _ _ hk).1

end Pegca

namespace Pegca

/-! ### Claim C1 -/

/-- Concrete run refuting C1 as stated: configured `target_util` 0.5 (below
the floor), one host, one VM; no breach in cycle 0, a breach in cycle 1 jumps
`target_util` up to the floor 0.70. -/
def cfgC1 : Config :=
  { alpha := 9/10, low_usage_threshold := 0, target_util := 1/2, hi_watermark := 3/5,
    dt_hours := 1, cycles := 2, n_hosts := 1, n_vms := 1, seed := 0 }

/-- Oracle for `cfgC1`: initial CPU draw 60; drift 0 in cycle 0, 10 in later
cycles (both within the bounds of `synth_drift` at those cycle indices). -/
def oC1 : Oracle := ⟨fun _ _ => 60, fun _ t _ => if t = 0 then 0 else 10⟩

/-- Claim C1 is false as stated: on a run whose configured `target_util`
starts below the 0.70 floor, `target_util` after cycle 1 (0.70, forced by the
breach branch's `max`) is strictly greater than after cycle 0 (0.50), so it
increases between consecutive cycles; and after cycle 0 it sits below the
claimed floor of 0.70. -/
theorem target_util_increase_cex :
    ¬ ((stateAfter cfgC1 oC1 2).target_util ≤ (stateAfter cfgC1 oC1 1).target_util) ∧
    (stateAfter cfgC1 oC1 1).target_util < 7/10 := by
  constructor
  · with_unfolding_all decide
  · with_unfolding_all decide

/-- Claim C1, amended: for every run whose configured `target_util` is at
least the floor 0.70, `target_util` never increases between consecutive
cycles and never drops below 0.70; and the only mutation is the feedback
controller's step, which either leaves it unchanged or applies the downward
step `max 0.70 (round3 (tu - 0.02))`. -/
theorem target_util_monotone_amended (cfg : Config) (o : Oracle)
    (h : 7/10 ≤ cfg.target_util) (n : ℕ) :
    (stateAfter cfg o (n+1)).target_util ≤ (stateAfter cfg o n).target_util ∧
    7/10 ≤ (stateAfter cfg o (n+1)).target_util ∧
    ((stateAfter cfg o (n+1)).target_util = (stateAfter cfg o n).target_util ∨
      (stateAfter cfg o (n+1)).target_util =
        max (7/10) (round_to 3 ((stateAfter cfg o n).target_util - 1/50))) := by
  obtain ⟨hfl, hdec⟩ := target_util_invariant cfg o h n
  refine ⟨hdec, ?_, ?_⟩
  · rw [stateAfter_succ, runCycle_target_util]
    exact (feedback_target_bounds _ _ hfl).2
  · rw [stateAfter_succ, runCycle_target_util]
    unfold feedback_target
    cases cycleBreach cfg (cycleHosts cfg o n (stateAfter cfg o n))
        (cycleVMs cfg o n (stateAfter cfg o n)) with
    | false => exact Or.inl rfl
    | true => exact Or.inr rfl

/-- Witness configuration for the amended C1: the default configuration
values on a one-host, one-VM run. -/
def cfgW1 : Config :=
  { alpha := 3/5, low_usage_threshold := 30, target_util := 4/5, hi_watermark := 9/10,
    dt_hours := 1, cycles := 24, n_hosts := 1, n_vms := 1, seed := 7 }

/-- Constant oracle used by witnesses: initial draw 50, drift 0. -/
def oW : Oracle := ⟨fun _ _ => 50, fun _ _ _ => 0⟩

/-- Witness instantiating the amended C1 at a concrete run. -/
theorem target_util_monotone_amended_witness :
    7/10 ≤ cfgW1.target_util ∧
    ((stateAfter cfgW1 oW 1).target_util ≤ (stateAfter cfgW1 oW 0).target_util ∧
     7/10 ≤ (stateAfter cfgW1 oW 1).target_util ∧
     ((stateAfter cfgW1 oW 1).target_util = (stateAfter cfgW1 oW 0).target_util ∨
       (stateAfter cfgW1 oW 1).target_util =
         max (7/10) (round_to 3 ((stateAfter cfgW1 oW 0).target_util - 1/50)))) :=
  ⟨by norm_num [cfgW1], target_util_monotone_amended cfgW1 oW (by norm_num [cfgW1]) 0⟩

end Pegca

namespace Pegca

/-! ### Planning lemmas and claims C4, C8 -/

/-- Every move in the plan produced by folding `planStep` over any candidate
list either was already in the initial plan or was accepted by `first_fit`:
its destination is the id of some host of the ON list and differs from the
recorded source. -/
theorem plan_foldl_mem (onh : List Host) (tu : ℚ) (cs : List VM)
    (st0 : PlanState) (mv : ℕ × ℕ × ℕ)
    (hmv : mv ∈ (cs.foldl (planStep onh tu) st0).plan) :
    mv ∈ st0.plan ∨ ∃ h ∈ onh, h.id = mv.2.2 ∧ mv.2.2 ≠ mv.2.1 := by
  induction cs generalizing st0 with
  | nil => exact Or.inl hmv
  | cons vm rest ih =>
    rw [List.foldl_cons] at hmv
    rcases ih (planStep onh tu st0 vm) hmv with h1 | h2
    · cases hff : first_fit vm onh st0.cpu_loads st0.mem_loads tu with
      | none =>
        simp only [planStep, hff] at h1
        exact Or.inl h1
      | some dst =>
        by_cases hne : dst.id ≠ vm.host_id
        · simp only [planStep, hff, if_pos hne, List.mem_append,
            List.mem_singleton] at h1
          rcases h1 with h1 | h1
          · exact Or.inl h1
          · subst h1
            exact Or.inr ⟨dst, List.mem_of_find?_eq_some hff, rfl, hne⟩
        · simp only [planStep, hff, if_neg hne] at h1
          exact Or.inl h1
    · exact Or.inr h2

/-- Claim C8 (confirmed): the planner never emits a no-op move — every tuple
`(vm_id, src, dst)` in a cycle's planned move list has `dst ≠ src`, where
`src` is the VM's host id at acceptance time. -/
theorem plan_no_noop_moves (cfg : Config) (hosts : List Host) (tu : ℚ)
    (vms2 : List VM) (mv : ℕ × ℕ × ℕ)
    (hmv : mv ∈ (cyclePlanState cfg hosts tu vms2).plan) : mv.2.2 ≠ mv.2.1 := by
  simp only [cyclePlanState] at hmv
  rcases plan_foldl_mem _ _ _ _ _ hmv with h | ⟨_, _, _, hne⟩
  · simp at h
  · exact hne

/-- Candidate VM used by planner witnesses: resides on host 1 with low
predicted load. -/
def vmW8 : VM :=
  { id := 0, host_id := 1, cpu_use_hist := [10, 10], mem_use_hist := [8, 8],
    pred_cpu := 10, pred_mem := 8 }

/-- Configuration used by the C8 witness. -/
def cfgW8 : Config :=
  { alpha := 3/5, low_usage_threshold := 30, target_util := 4/5, hi_watermark := 9/10,
    dt_hours := 1, cycles := 1, n_hosts := 2, n_vms := 1, seed := 0 }

/-- Witness for C8: a concrete cycle plan containing the move `(0, 1, 0)`,
whose destination 0 differs from its source 1. -/
theorem plan_no_noop_moves_witness :
    ((0, 1, 0) : ℕ × ℕ × ℕ) ∈ (cyclePlanState cfgW8 [mkHost 0, mkHost 1] (4/5) [vmW8]).plan ∧
    ((0, 1, 0) : ℕ × ℕ × ℕ).2.2 ≠ ((0, 1, 0) : ℕ × ℕ × ℕ).2.1 :=
  ⟨by with_unfolding_all decide,
   plan_no_noop_moves cfgW8 [mkHost 0, mkHost 1] (4/5) [vmW8] (0, 1, 0)
     (by with_unfolding_all decide)⟩

/-- Claim C4 (confirmed): when the planning loop accepts a move (a first-fit
destination exists and differs from the VM's current host), the destination's
tallies immediately after acceptance — the tallies threaded through the fold,
so later candidates see earlier accepted moves — are within
`cap * target_util` for both CPU and memory, with the `target_util` in force
when the move was planned. -/
theorem planStep_capacity_respect (onh : List Host) (tu : ℚ) (st : PlanState)
    (vm : VM) (dst : Host)
    (hff : first_fit vm onh st.cpu_loads st.mem_loads tu = some dst)
    (hne : dst.id ≠ vm.host_id) :
    (planStep onh tu st vm).cpu_loads dst.id ≤ dst.cpu_cap * tu ∧
    (planStep onh tu st vm).mem_loads dst.id ≤ dst.mem_cap * tu ∧
    (planStep onh tu st vm).plan = st.plan ++ [(vm.id, vm.host_id, dst.id)] := by
  have hff2 : (onh.find? fun h =>
      decide (st.cpu_loads h.id + vm.pred_cpu ≤ h.cpu_cap * tu) &&
      decide (st.mem_loads h.id + vm.pred_mem ≤ h.mem_cap * tu)) = some dst := hff
  have hp := List.find?_some hff2
  simp only [Bool.and_eq_true, decide_eq_true_eq] at hp
  simp only [planStep, hff, if_pos hne, updAdd, if_pos rfl]
  exact ⟨hp.1, hp.2, trivial⟩

/-- Candidate VM used by the C4 witness: on host 5, so host 0 is a genuine
destination. -/
def vmW4 : VM :=
  { id := 3, host_id := 5, cpu_use_hist := [10, 10], mem_use_hist := [8, 8],
    pred_cpu := 10, pred_mem := 8 }

/-- Empty planning tallies used by the C4 witness. -/
def stW4 : PlanState := ⟨fun _ => 0, fun _ => 0, []⟩

/-- Witness for C4 at a concrete accepted move. -/
theorem planStep_capacity_respect_witness :
    first_fit vmW4 [mkHost 0] stW4.cpu_loads stW4.mem_loads (4/5) = some (mkHost 0) ∧
    (mkHost 0).id ≠ vmW4.host_id ∧
    ((planStep [mkHost 0] (4/5) stW4 vmW4).cpu_loads (mkHost 0).id ≤
        (mkHost 0).cpu_cap * (4/5) ∧
      (planStep [mkHost 0] (4/5) stW4 vmW4).mem_loads (mkHost 0).id ≤
        (mkHost 0).mem_cap * (4/5) ∧
      (planStep [mkHost 0] (4/5) stW4 vmW4).plan =
        stW4.plan ++ [(vmW4.id, vmW4.host_id, (mkHost 0).id)]) :=
  ⟨by with_unfolding_all decide, by decide,
   planStep_capacity_respect [mkHost 0] (4/5) stW4 vmW4 (mkHost 0)
     (by with_unfolding_all decide) (by decide)⟩

/-! ### Claims C6 and C7 -/

/-- Claim C6 (confirmed): per cycle the run-wide breach counter grows by one
exactly when the watermark test over the recomputed loads fires, else by
zero; and the watermark test fires iff some key of the load dictionary has a
positive capacity (zero or missing capacity counts as 0) whose load strictly
exceeds `cap * hi_watermark`. -/
theorem breach_counter_step (cfg : Config) (o : Oracle) (t : ℕ) (st : SimState)
    (cl : ℕ → ℚ) (ids : List ℕ) (hs : List Host) (hi : ℚ)
    (hosts1 : List Host) (vms3 : List VM) :
    (runCycle cfg o t st).total_breaches = st.total_breaches +
      (if cycleBreach cfg (cycleHosts cfg o t st) (cycleVMs cfg o t st) then 1 else 0) ∧
    (cycleBreach cfg hosts1 vms3 =
      any_high_watermark (loads_predicted (active_hosts hosts1) vms3).1
        (onIds (active_hosts hosts1)) (active_hosts hosts1) cfg.hi_watermark) ∧
    (any_high_watermark cl ids hs hi = true ↔
      ∃ hid ∈ ids,
        0 < dictCapOf (hs.filter fun h => decide (h.status = Status.ON)) hid ∧
        dictCapOf (hs.filter fun h => decide (h.status = Status.ON)) hid * hi
          < cl hid) := by
  refine ⟨rfl, rfl, ?_⟩
  simp [any_high_watermark, List.any_eq_true]

/-- Sum of idle power over the OFF sublist equals the sum over all hosts with
ON hosts contributing zero. -/
theorem sum_off_idle (hs : List Host) :
    ((off_hosts hs).map Host.power_idle_watts).sum =
      (hs.map fun h => if h.status = Status.OFF then h.power_idle_watts else 0).sum := by
  induction hs with
  | nil => rfl
  | cons h rest ih =>
    by_cases hoff : h.status = Status.OFF
    · simp [off_hosts, List.filter_cons, hoff] at ih ⊢
      simp [ih]
    · simp [off_hosts, List.filter_cons, hoff] at ih ⊢
      simp [ih]

/-- Claim C7 (confirmed): each cycle the energy total grows by exactly the
idle-power sum of the hosts OFF after the shutdown step, times `dt_hours`,
divided by 1000; hosts that are ON contribute the zero branch of the sum. -/
theorem energy_accumulation_step (cfg : Config) (o : Oracle) (t : ℕ) (st : SimState) :
    (runCycle cfg o t st).total_kwh = st.total_kwh +
      ((cycleHosts cfg o t st).map fun h =>
        if h.status = Status.OFF then h.power_idle_watts else 0).sum
        * cfg.dt_hours / 1000 := by
  show st.total_kwh + ((off_hosts (cycleHosts cfg o t st)).map
      Host.power_idle_watts).sum * cfg.dt_hours / 1000 = _
  rw [sum_off_idle]

end Pegca

namespace Pegca

/-! ### Claim C5 -/

/-- Position-wise view of one cycle's host update: host `k` after the cycle
is `shutdownF` of host `k` before it. -/
theorem runCycle_hosts_getElem (cfg : Config) (o : Oracle) (t : ℕ)
    (st : SimState) (k : ℕ) :
    (runCycle cfg o t st).hosts[k]? =
      (st.hosts[k]?).map (shutdownF (cycleVMs cfg o t st)) := by
  show (st.hosts.map (shutdownF (cycleVMs cfg o t st)))[k]? = _
  exact List.getElem?_map _ _ _

/-- An OFF host is left untouched by the shutdown step. -/
theorem shutdownF_off (vms : List VM) (h : Host) (hoff : h.status = Status.OFF) :
    shutdownF vms h = h := by
  unfold shutdownF
  rw [if_neg]
  rintro ⟨hON, -⟩
  rw [hoff] at hON
  cases hON

/-- Status transition table of `shutdownF`: either the status is unchanged or
it flips ON to OFF, and the result is OFF exactly when the host was OFF
already or no VM is assigned to it. -/
theorem shutdownF_status_char (vms : List VM) (h : Host) :
    ((shutdownF vms h).status = h.status ∨
      (h.status = Status.ON ∧ (shutdownF vms h).status = Status.OFF)) ∧
    ((shutdownF vms h).status = Status.OFF ↔
      (h.status = Status.OFF ∨ ∀ vm ∈ vms, vm.host_id ≠ h.id)) := by
  unfold shutdownF
  by_cases hON : h.status = Status.ON
  · by_cases hany : (vms.any fun vm => decide (vm.host_id = h.id)) = true
    · rw [if_neg (by rintro ⟨-, hno⟩; exact hno hany)]
      refine ⟨Or.inl rfl, ?_⟩
      rw [hON]
      simp only [List.any_eq_true, decide_eq_true_eq] at hany
      obtain ⟨vm, hvm, he⟩ := hany
      constructor
      · rintro h1; cases h1
      · rintro (h1 | h1)
        · cases h1
        · exact absurd he (h1 vm hvm)
    · rw [if_pos ⟨hON, hany⟩]
      refine ⟨Or.inr ⟨hON, rfl⟩, ?_⟩
      simp only [List.any_eq_true, decide_eq_true_eq] at hany
      push_neg at hany
      simp only [true_iff]
      exact Or.inr hany
  · have hoff : h.status = Status.OFF := by
      cases hs : h.status
      · exact absurd hs hON
      · rfl
    rw [if_neg (by rintro ⟨h1, -⟩; exact hON h1)]
    exact ⟨Or.inl rfl, by rw [hoff]; simp⟩

/-- OFF persists from cycle `i` to any later cycle `j` at every host
position. -/
theorem off_persists_run (cfg : Config) (o : Oracle) (i j : ℕ) (hij : i ≤ j)
    (k : ℕ) :
    ∀ h h2, (stateAfter cfg o i).hosts[k]? = some h → h.status = Status.OFF →
      (stateAfter cfg o j).hosts[k]? = some h2 → h2.status = Status.OFF := by
  induction j, hij using Nat.le_induction with
  | base =>
    intro h h2 e1 hoff e2
    rw [e1] at e2
    cases e2
    exact hoff
  | succ n hn ih =>
    intro h h2 e1 hoff e2
    rw [stateAfter_succ, runCycle_hosts_getElem] at e2
    cases em : (stateAfter cfg o n).hosts[k]? with
    | none => rw [em] at e2; cases e2
    | some hm =>
      rw [em] at e2
      simp only [Option.map_some'] at e2
      cases e2
      have hmoff : hm.status = Status.OFF := ih h hm e1 hoff em
      rw [shutdownF_off _ _ hmoff]
      exact hmoff

/-- Claim C5 (confirmed): once a host is OFF at some cycle it is OFF at every
later cycle of the run; within one cycle the only status transition performed
is ON to OFF, and it happens exactly when the host ends the cycle's shutdown
step with no VM of the post-migration VM list assigned to it. -/
theorem shutdown_irreversible (cfg : Config) (o : Oracle) (i j k : ℕ)
    (hij : i ≤ j) (h h2 : Host) (st : SimState) (t : ℕ) (g g2 : Host)
    (e1 : (stateAfter cfg o i).hosts[k]? = some h)
    (hoff : h.status = Status.OFF)
    (e2 : (stateAfter cfg o j).hosts[k]? = some h2)
    (e3 : st.hosts[k]? = some g)
    (e4 : (runCycle cfg o t st).hosts[k]? = some g2) :
    h2.status = Status.OFF ∧
    (g2.status = g.status ∨ (g.status = Status.ON ∧ g2.status = Status.OFF)) ∧
    (g2.status = Status.OFF ↔
      (g.status = Status.OFF ∨ ∀ vm ∈ cycleVMs cfg o t st, vm.host_id ≠ g.id)) := by
  have hg2 : g2 = shutdownF (cycleVMs cfg o t st) g := by
    rw [runCycle_hosts_getElem, e3, Option.map_some'] at e4
    exact (Option.some.inj e4).symm
  subst hg2
  exact ⟨off_persists_run cfg o i j hij k h h2 e1 hoff e2,
    (shutdownF_status_char _ g).1, (shutdownF_status_char _ g).2⟩

/-- Two-host, one-VM configuration used by the C5 witness: host 1 is empty
from the start and is shut down in cycle 0. -/
def cfgW5 : Config :=
  { alpha := 3/5, low_usage_threshold := 0, target_util := 4/5, hi_watermark := 9/10,
    dt_hours := 1, cycles := 2, n_hosts := 2, n_vms := 1, seed := 0 }

/-- Constant oracle for the C5 witness. -/
def oW5 : Oracle := ⟨fun _ _ => 50, fun _ _ _ => 0⟩

/-- Host 1 of `cfgW5` after its cycle-0 shutdown. -/
def hW5 : Host := { mkHost 1 with status := Status.OFF }

/-- Witness for C5: host 1 is OFF after cycle 1 and stays OFF after cycle 2;
the same cycle-0 transition satisfies the status characterization. -/
theorem shutdown_irreversible_witness :
    (1:ℕ) ≤ 2 ∧
    (stateAfter cfgW5 oW5 1).hosts[1]? = some hW5 ∧
    hW5.status = Status.OFF ∧
    (stateAfter cfgW5 oW5 2).hosts[1]? = some hW5 ∧
    (initState cfgW5 oW5).hosts[1]? = some (mkHost 1) ∧
    (runCycle cfgW5 oW5 0 (initState cfgW5 oW5)).hosts[1]? = some hW5 ∧
    (hW5.status = Status.OFF ∧
     (hW5.status = (mkHost 1).status ∨
       ((mkHost 1).status = Status.ON ∧ hW5.status = Status.OFF)) ∧
     (hW5.status = Status.OFF ↔
       ((mkHost 1).status = Status.OFF ∨
        ∀ vm ∈ cycleVMs cfgW5 oW5 0 (initState cfgW5 oW5),
          vm.host_id ≠ (mkHost 1).id))) :=
  ⟨by decide, by with_unfolding_all decide, by decide,
   by with_unfolding_all decide, by with_unfolding_all decide,
   by with_unfolding_all decide,
   shutdown_irreversible cfgW5 oW5 1 2 1 (by decide) hW5 hW5
     (initState cfgW5 oW5) 0 (mkHost 1) hW5
     (by with_unfolding_all decide) (by decide)
     (by with_unfolding_all decide) (by with_unfolding_all decide)
     (by with_unfolding_all decide)⟩

end Pegca

namespace Pegca

/-! ### Claim C9 -/

/-- Claim C9 (confirmed): `predict_ema` sets both cached predictions to
`alpha * latest + (1 - alpha) * previous` over the two most recent samples of
the respective history, with the same `alpha` for both dimensions, touching
nothing else of the VM; and every VM in the list handed to the planner in a
cycle (`predVMs`, computed after the drift step and before planning) carries
exactly that freshly recomputed prediction of its own post-drift history,
never a stale one. -/
theorem predict_ema_recompute (vm : VM) (a : ℚ) (cfg : Config) (o : Oracle)
    (t : ℕ) (vms : List VM) (v : VM) (hv : v ∈ predVMs cfg o t vms) :
    ((predict_ema vm a).pred_cpu
        = a * last1 vm.cpu_use_hist + (1 - a) * last2 vm.cpu_use_hist ∧
     (predict_ema vm a).pred_mem
        = a * last1 vm.mem_use_hist + (1 - a) * last2 vm.mem_use_hist ∧
     (predict_ema vm a).cpu_use_hist = vm.cpu_use_hist ∧
     (predict_ema vm a).mem_use_hist = vm.mem_use_hist ∧
     (predict_ema vm a).id = vm.id ∧
     (predict_ema vm a).host_id = vm.host_id) ∧
    (v.pred_cpu = cfg.alpha * last1 v.cpu_use_hist
        + (1 - cfg.alpha) * last2 v.cpu_use_hist ∧
     v.pred_mem = cfg.alpha * last1 v.mem_use_hist
        + (1 - cfg.alpha) * last2 v.mem_use_hist) := by
  refine ⟨⟨rfl, rfl, rfl, rfl, rfl, rfl⟩, ?_⟩
  simp only [predVMs, List.mem_map] at hv
  obtain ⟨u, -, he⟩ := hv
  subst he
  exact ⟨rfl, rfl⟩

/-- Configuration used by the C9 witness. -/
def cfgW9 : Config :=
  { alpha := 3/5, low_usage_threshold := 30, target_util := 4/5, hi_watermark := 9/10,
    dt_hours := 1, cycles := 1, n_hosts := 1, n_vms := 1, seed := 0 }

/-- Input VM list for the C9 witness. -/
def vmsW9 : List VM :=
  [{ id := 0, host_id := 0, cpu_use_hist := [20, 20], mem_use_hist := [16, 16],
     pred_cpu := 20, pred_mem := 16 }]

/-- The VM as the planner sees it in cycle 0 of the C9 witness run. -/
def vmW9 : VM := (predVMs cfgW9 oW 0 vmsW9).getD 0 default

/-- Witness instantiating C9 at a concrete cycle. -/
theorem predict_ema_recompute_witness :
    vmW9 ∈ predVMs cfgW9 oW 0 vmsW9 ∧
    (((predict_ema vmW9 (1/2)).pred_cpu
        = (1/2) * last1 vmW9.cpu_use_hist + (1 - (1/2)) * last2 vmW9.cpu_use_hist ∧
      (predict_ema vmW9 (1/2)).pred_mem
        = (1/2) * last1 vmW9.mem_use_hist + (1 - (1/2)) * last2 vmW9.mem_use_hist ∧
      (predict_ema vmW9 (1/2)).cpu_use_hist = vmW9.cpu_use_hist ∧
      (predict_ema vmW9 (1/2)).mem_use_hist = vmW9.mem_use_hist ∧
      (predict_ema vmW9 (1/2)).id = vmW9.id ∧
      (predict_ema vmW9 (1/2)).host_id = vmW9.host_id) ∧
     (vmW9.pred_cpu = cfgW9.alpha * last1 vmW9.cpu_use_hist
        + (1 - cfgW9.alpha) * last2 vmW9.cpu_use_hist ∧
      vmW9.pred_mem = cfgW9.alpha * last1 vmW9.mem_use_hist
        + (1 - cfgW9.alpha) * last2 vmW9.mem_use_hist)) :=
  ⟨by with_unfolding_all decide,
   predict_ema_recompute vmW9 (1/2) cfgW9 oW 0 vmsW9 vmW9
     (by with_unfolding_all decide)⟩

/-! ### Claim C10 -/

/-- VM `vm` is placed on an existing ON host of `hosts`. -/
def HostedOn (hosts : List Host) (vm : VM) : Prop :=
  ∃ h ∈ hosts, h.id = vm.host_id ∧ h.status = Status.ON

/-- The drift step changes no VM's host assignment. -/
theorem driftVMsFrom_host (d : ℕ → ℚ) (i : ℕ) (l : List VM) (vm : VM)
    (hm : vm ∈ driftVMsFrom d i l) : ∃ w ∈ l, vm.host_id = w.host_id := by
  induction l generalizing i with
  | nil => cases hm
  | cons w rest ih =>
    rcases List.mem_cons.mp hm with h | h
    · exact ⟨w, List.mem_cons_self w rest, by rw [h]; rfl⟩
    · obtain ⟨w2, hw2, he⟩ := ih (i + 1) h
      exact ⟨w2, List.mem_cons_of_mem _ hw2, he⟩

/-- The drift-then-predict step changes no VM's host assignment. -/
theorem predVMs_host (cfg : Config) (o : Oracle) (t : ℕ) (vms : List VM)
    (vm : VM) (hm : vm ∈ predVMs cfg o t vms) :
    ∃ w ∈ vms, vm.host_id = w.host_id := by
  simp only [predVMs, List.mem_map] at hm
  obtain ⟨u, hu, he⟩ := hm
  obtain ⟨w, hw, he2⟩ := driftVMsFrom_host _ _ _ _ hu
  refine ⟨w, hw, ?_⟩
  rw [← he]
  exact he2

/-- At run start every VM is round-robin assigned to an existing ON host. -/
theorem hostedOn_init (cfg : Config) (o : Oracle) (hn : 0 < cfg.n_hosts) :
    ∀ vm ∈ (initState cfg o).vms, HostedOn (initState cfg o).hosts vm := by
  intro vm hm
  simp only [initState, List.mem_map, List.mem_range] at hm
  obtain ⟨i, hi, he⟩ := hm
  refine ⟨mkHost (i % cfg.n_hosts), ?_, ?_⟩
  · exact List.mem_map_of_mem _ (List.mem_range.mpr (Nat.mod_lt i hn))
  · subst he
    exact ⟨rfl, rfl⟩

/-- Applying a move list whose destinations are all ON-host ids preserves the
placement invariant. -/
theorem applyPlan_hostedOn (hosts : List Host) (plan : List (ℕ × ℕ × ℕ))
    (vms : List VM)
    (hplan : ∀ mv ∈ plan, ∃ h ∈ hosts, h.id = mv.2.2 ∧ h.status = Status.ON)
    (hvms : ∀ vm ∈ vms, HostedOn hosts vm) :
    ∀ vm ∈ plan.foldl applyMove vms, HostedOn hosts vm := by
  induction plan generalizing vms with
  | nil => exact hvms
  | cons mv rest ih =>
    rw [List.foldl_cons]
    apply ih
    · intro m hm
      exact hplan m (List.mem_cons_of_mem _ hm)
    · intro vm hv
      rcases List.mem_or_eq_of_mem_set hv with h | h
      · exact hvms vm h
      · subst h
        obtain ⟨h, hmem, hid, hON⟩ := hplan mv (List.mem_cons_self _ _)
        exact ⟨h, hmem, hid, hON⟩

/-- A host holding at least one VM survives the shutdown step unchanged, so
the placement invariant carries over to the post-shutdown host list. -/
theorem shutdownStep_hostedOn (hosts : List Host) (vms : List VM)
    (hvms : ∀ vm ∈ vms, HostedOn hosts vm) :
    ∀ vm ∈ vms, HostedOn (shutdownStep hosts vms) vm := by
  intro vm hv
  obtain ⟨h, hmem, hid, hON⟩ := hvms vm hv
  have hany : (vms.any fun w => decide (w.host_id = h.id)) = true := by
    simp only [List.any_eq_true, decide_eq_true_eq]
    exact ⟨vm, hv, hid.symm⟩
  have hfix : shutdownF vms h = h := by
    unfold shutdownF
    rw [if_neg]
    rintro ⟨-, hno⟩
    exact hno hany
  refine ⟨h, ?_, hid, hON⟩
  rw [shutdownStep]
  exact hfix ▸ List.mem_map_of_mem _ hmem

/-- One cycle preserves the placement invariant. -/
theorem runCycle_hostedOn (cfg : Config) (o : Oracle) (t : ℕ) (st : SimState)
    (hst : ∀ vm ∈ st.vms, HostedOn st.hosts vm) :
    ∀ vm ∈ (runCycle cfg o t st).vms, HostedOn (runCycle cfg o t st).hosts vm := by
  have h2 : ∀ vm ∈ predVMs cfg o t st.vms, HostedOn st.hosts vm := by
    intro vm hm
    obtain ⟨w, hw, he⟩ := predVMs_host cfg o t st.vms vm hm
    obtain ⟨h, hmem, hid, hON⟩ := hst w hw
    refine ⟨h, hmem, ?_, hON⟩
    rw [he]
    exact hid
  have h3 : ∀ vm ∈ cycleVMs cfg o t st, HostedOn st.hosts vm := by
    intro vm hm
    refine applyPlan_hostedOn st.hosts _ _ ?_ h2 vm hm
    intro mv hmv
    simp only [cyclePlanState] at hmv
    rcases plan_foldl_mem _ _ _ _ _ hmv with hc | ⟨h, hmem, hid, -⟩
    · simp at hc
    · rw [active_hosts, List.mem_filter] at hmem
      exact ⟨h, hmem.1, hid, by simpa using hmem.2⟩
  exact fun vm hm => shutdownStep_hostedOn st.hosts (cycleVMs cfg o t st) h3 vm hm

/-- Claim C10 (confirmed): at every point of a run with at least one host,
every VM's `host_id` references a host of the current host list whose status
is ON — the spec's allowance for a VM to point at an OFF host never occurs. -/
theorem vm_host_always_on (cfg : Config) (o : Oracle) (hn : 0 < cfg.n_hosts)
    (n : ℕ) (vm : VM) (hm : vm ∈ (stateAfter cfg o n).vms) :
    ∃ h ∈ (stateAfter cfg o n).hosts, h.id = vm.host_id ∧ h.status = Status.ON := by
  induction n generalizing vm with
  | zero => exact hostedOn_init cfg o hn vm hm
  | succ k ih =>
    rw [stateAfter_succ] at hm ⊢
    exact runCycle_hostedOn cfg o k (stateAfter cfg o k) ih vm hm

/-- Configuration used by the C10 witness. -/
def cfgW10 : Config :=
  { alpha := 3/5, low_usage_threshold := 30, target_util := 4/5, hi_watermark := 9/10,
    dt_hours := 1, cycles := 1, n_hosts := 2, n_vms := 2, seed := 0 }

/-- The first VM of the C10 witness run after one cycle. -/
def vmW10 : VM := (stateAfter cfgW10 oW 1).vms.getD 0 default

/-- Witness instantiating C10 after one concrete cycle. -/
theorem vm_host_always_on_witness :
    0 < cfgW10.n_hosts ∧ vmW10 ∈ (stateAfter cfgW10 oW 1).vms ∧
    ∃ h ∈ (stateAfter cfgW10 oW 1).hosts, h.id = vmW10.host_id ∧
      h.status = Status.ON :=
  ⟨by decide, by with_unfolding_all decide,
   vm_host_always_on cfgW10 oW (by decide) 1 vmW10 (by with_unfolding_all decide)⟩

end Pegca

namespace Pegca

/-! ### Claim C2 -/

/-- Configuration whose run breaches the watermark, so `simulate` steps the
shared `target_util` down. -/
def cfgC2 : Config :=
  { alpha := 9/10, low_usage_threshold := 0, target_util := 4/5, hi_watermark := 1/2,
    dt_hours := 1, cycles := 1, n_hosts := 1, n_vms := 1, seed := 0 }

/-- Oracle for `cfgC2`: initial CPU draw 50, drift 7 (within the bounds of
`synth_drift` at cycle 0). -/
def oC2 : Oracle := ⟨fun _ _ => 50, fun _ _ _ => 7⟩

/-- Claim C2 is false as stated: `simulate` does leave state behind in the
configuration — it returns with `cfg.target_util` overwritten (0.78 instead
of the configured 0.80), and a second run reusing that same configuration
object produces a different summary (final target 0.76 instead of 0.78)
despite an identical seed and oracle. -/
theorem simulate_rerun_cex :
    (simulate cfgC2 oC2).2 ≠ cfgC2 ∧
    (simulate (simulate cfgC2 oC2).2 oC2).1 ≠ (simulate cfgC2 oC2).1 := by
  constructor
  · with_unfolding_all decide
  · with_unfolding_all decide

/-- Claim C2, amended: for any two configuration records that agree on every
field (and one drift source), `simulate` produces identical summary records
in every field; but each run mutates the configuration it was given rather
than constructing an independent copy — the run returns the configuration
with `target_util` replaced by the run's final value, so re-running from the
configuration left behind by a previous run need not reproduce it. -/
theorem simulate_deterministic_amended (c1 c2 : Config) (o : Oracle)
    (h1 : c1.alpha = c2.alpha)
    (h2 : c1.low_usage_threshold = c2.low_usage_threshold)
    (h3 : c1.target_util = c2.target_util)
    (h4 : c1.hi_watermark = c2.hi_watermark)
    (h5 : c1.dt_hours = c2.dt_hours)
    (h6 : c1.cycles = c2.cycles)
    (h7 : c1.n_hosts = c2.n_hosts)
    (h8 : c1.n_vms = c2.n_vms)
    (h9 : c1.seed = c2.seed) :
    (simulate c1 o).1 = (simulate c2 o).1 ∧
    (simulate c1 o).2 =
      { c1 with target_util := (stateAfter c1 o c1.cycles).target_util } := by
  have he : c1 = c2 := by
    cases c1
    cases c2
    simp only [Config.mk.injEq]
    exact ⟨h1, h2, h3, h4, h5, h6, h7, h8, h9⟩
  subst he
  exact ⟨rfl, rfl⟩

/-- First copy of the configuration for the C2 witness. -/
def cfgW2 : Config :=
  { alpha := 3/5, low_usage_threshold := 30, target_util := 4/5, hi_watermark := 9/10,
    dt_hours := 1, cycles := 1, n_hosts := 2, n_vms := 3, seed := 3 }

/-- Second, independently constructed copy with the same field values. -/
def cfgW2b : Config :=
  { alpha := 3/5, low_usage_threshold := 30, target_util := 4/5, hi_watermark := 9/10,
    dt_hours := 1, cycles := 1, n_hosts := 2, n_vms := 3, seed := 3 }

/-- Witness instantiating the amended C2 on two equal configuration copies. -/
theorem simulate_deterministic_amended_witness :
    cfgW2.alpha = cfgW2b.alpha ∧
    cfgW2.low_usage_threshold = cfgW2b.low_usage_threshold ∧
    cfgW2.target_util = cfgW2b.target_util ∧
    cfgW2.hi_watermark = cfgW2b.hi_watermark ∧
    cfgW2.dt_hours = cfgW2b.dt_hours ∧
    cfgW2.cycles = cfgW2b.cycles ∧
    cfgW2.n_hosts = cfgW2b.n_hosts ∧
    cfgW2.n_vms = cfgW2b.n_vms ∧
    cfgW2.seed = cfgW2b.seed ∧
    ((simulate cfgW2 oW).1 = (simulate cfgW2b oW).1 ∧
     (simulate cfgW2 oW).2 =
       { cfgW2 with target_util := (stateAfter cfgW2 oW cfgW2.cycles).target_util }) :=
  ⟨rfl, rfl, rfl, rfl, rfl, rfl, rfl, rfl, rfl,
   simulate_deterministic_amended cfgW2 cfgW2b oW
     rfl rfl rfl rfl rfl rfl rfl rfl rfl⟩

/-! ### Claim C3 -/

/-- Rounding to zero decimals of zero. -/
theorem round_to_zero (nd : ℕ) : round_to nd 0 = 0 := by
  simp [round_to]

/-- The rounded fields of a summary, by definition. -/
theorem summarize_fields (st : SimState) :
    (summarize st).energy_kwh_total = round_to 3 st.total_kwh ∧
    (summarize st).final_target_util = round_to 3 st.target_util ∧
    (summarize st).util_mean_final =
      (if (finalUtils st).isEmpty then 0 else round_to 4 (pymean (finalUtils st))) ∧
    (summarize st).util_p95_final =
      (if 20 ≤ (finalUtils st).length then round_to 4 (quantiles20_last (finalUtils st))
       else pymax (finalUtils st)) :=
  ⟨rfl, rfl, rfl, rfl⟩

/-- Configuration for the C3 counterexample: one host, one VM, one cycle. -/
def cfgC3 : Config :=
  { alpha := 3/5, low_usage_threshold := 0, target_util := 4/5, hi_watermark := 9/10,
    dt_hours := 1, cycles := 1, n_hosts := 1, n_vms := 1, seed := 0 }

/-- Oracle for `cfgC3`: initial CPU draw 50, drift 0.001, giving the final
utilization 0.500006 — more precision than 4 decimal places. -/
def oC3 : Oracle := ⟨fun _ _ => 50, fun _ _ _ => 1/1000⟩

/-- Claim C3 is false as stated: with fewer than 20 ON hosts the 95th
percentile falls back to `max(utils)`, which the source returns unrounded —
here `util_p95_final` is 0.500006, which is not a 4-decimal-place value. -/
theorem util_p95_fallback_unrounded_cex :
    (simulate cfgC3 oC3).1.util_p95_final ≠
      round_to 4 ((simulate cfgC3 oC3).1.util_p95_final) := by
  with_unfolding_all decide

/-- Claim C3, amended: on every run, `energy_kwh_total` and
`final_target_util` are rounded to 3 decimal places and `util_mean_final` to
4 (each field is a fixed point of the corresponding rounding,
unconditionally); `util_p95_final` is rounded to 4 decimal places whenever at
least 20 utilization entries remain, while in the fewer-than-20-hosts
fallback it is exactly the unrounded maximum `max(utils)` of the utilization
list. -/
theorem summary_rounding_amended (cfg : Config) (o : Oracle) :
    round_to 3 (simulate cfg o).1.energy_kwh_total
      = (simulate cfg o).1.energy_kwh_total ∧
    round_to 3 (simulate cfg o).1.final_target_util
      = (simulate cfg o).1.final_target_util ∧
    round_to 4 (simulate cfg o).1.util_mean_final
      = (simulate cfg o).1.util_mean_final ∧
    (20 ≤ (finalUtils (stateAfter cfg o cfg.cycles)).length →
      round_to 4 (simulate cfg o).1.util_p95_final
        = (simulate cfg o).1.util_p95_final) ∧
    ((finalUtils (stateAfter cfg o cfg.cycles)).length < 20 →
      (simulate cfg o).1.util_p95_final
        = pymax (finalUtils (stateAfter cfg o cfg.cycles))) := by
  have hs : (simulate cfg o).1 = summarize (stateAfter cfg o cfg.cycles) := rfl
  obtain ⟨f1, f2, f3, f4⟩ := summarize_fields (stateAfter cfg o cfg.cycles)
  rw [hs, f1, f2, f3, f4]
  refine ⟨round_to_idem 3 _, round_to_idem 3 _, ?_, ?_, ?_⟩
  · by_cases hne : (finalUtils (stateAfter cfg o cfg.cycles)).isEmpty
    · rw [if_pos hne]
      exact round_to_zero 4
    · rw [if_neg hne]
      exact round_to_idem 4 _
  · intro h20
    rw [if_pos h20]
    exact round_to_idem 4 _
  · intro hlt
    rw [if_neg (Nat.not_le.mpr hlt)]

/-- Configuration for the C3 witness: 20 hosts and 20 VMs, summarized with no
cycles run, so all 20 hosts are ON and the 20-quantile branch is taken. -/
def cfgW3 : Config :=
  { alpha := 3/5, low_usage_threshold := 0, target_util := 4/5, hi_watermark := 9/10,
    dt_hours := 1, cycles := 0, n_hosts := 20, n_vms := 20, seed := 0 }

/-- Witness instantiating the amended C3 on both branches: the quantile
branch on a run with 20 ON hosts, and the fallback branch on the one-host run
of `cfgC3`, whose single-entry utilization list yields the unrounded
maximum. -/
theorem summary_rounding_amended_witness :
    (20 ≤ (finalUtils (stateAfter cfgW3 oW cfgW3.cycles)).length ∧
     round_to 4 (simulate cfgW3 oW).1.util_p95_final
        = (simulate cfgW3 oW).1.util_p95_final) ∧
    ((finalUtils (stateAfter cfgC3 oC3 cfgC3.cycles)).length < 20 ∧
     (simulate cfgC3 oC3).1.util_p95_final
        = pymax (finalUtils (stateAfter cfgC3 oC3 cfgC3.cycles))) ∧
    round_to 3 (simulate cfgW3 oW).1.energy_kwh_total
        = (simulate cfgW3 oW).1.energy_kwh_total ∧
    round_to 3 (simulate cfgW3 oW).1.final_target_util
        = (simulate cfgW3 oW).1.final_target_util ∧
    round_to 4 (simulate cfgW3 oW).1.util_mean_final
        = (simulate cfgW3 oW).1.util_mean_final :=
  ⟨⟨by with_unfolding_all decide,
    (summary_rounding_amended cfgW3 oW).2.2.2.1 (by with_unfolding_all decide)⟩,
   ⟨by with_unfolding_all decide,
    (summary_rounding_amended cfgC3 oC3).2.2.2.2 (by with_unfolding_all decide)⟩,
   (summary_rounding_amended cfgW3 oW).1,
   (summary_rounding_amended cfgW3 oW).2.1,
   (summary_rounding_amended cfgW3 oW).2.2.1⟩

end Pegca
